import Mathlib

/-!
# Raw Linux syscalls (`linux_syscalls/syscalls.c`) and the xorshift mixer (`sudo_random/sudorng.c`)

A shallow embedding of the two C files.

* Machine words are natural numbers; every place where the hardware truncates
  to 64 (or 32) bits carries an explicit `% 2 ^ 64` (or `% 2 ^ 32`).
* `i64` values of the C code are integers; `toWord` gives their two's-complement
  register pattern and `toI64` reads a register pattern back as a signed value.
* Memory is byte addressed (`Nat → Nat`, a cell is read modulo 256); a 64-bit
  `mov` reads or writes eight consecutive bytes, little endian, addresses taken
  modulo `2 ^ 64`.
* `syscall_insn` is the instruction list of the inline assembly; it is run by a
  small-step interpreter whose `syscall` instruction is parameterised by a
  kernel model.
-/

namespace LinuxSyscalls

/-! ## Words and memory -/

/-- Number of values of a 64-bit register. -/
def W64 : Nat := 18446744073709551616

/-- Byte-addressed memory. -/
abbrev Mem := Nat → Nat

/-- Little-endian 64-bit load at byte address `a` (as done by `mov off(%r11), %reg`). -/
def load64 (mem : Mem) (a : Nat) : Nat :=
  mem (a % W64) % 256
    + 256 * (mem ((a + 1) % W64) % 256
    + 256 * (mem ((a + 2) % W64) % 256
    + 256 * (mem ((a + 3) % W64) % 256
    + 256 * (mem ((a + 4) % W64) % 256
    + 256 * (mem ((a + 5) % W64) % 256
    + 256 * (mem ((a + 6) % W64) % 256
    + 256 * (mem ((a + 7) % W64) % 256)))))))

/-- Little-endian 64-bit store of `v` at byte address `a`: the byte at distance `d < 8`
above `a` (modulo `2 ^ 64`) becomes byte `d` of `v`, every other byte is kept. -/
def store64 (mem : Mem) (a v : Nat) : Mem := fun x =>
  let d := (x % W64 + W64 - a % W64) % W64
  if d < 8 then (v / 256 ^ d) % 256 else mem x

/-- Register pattern of an `i64` value (two's complement). -/
def toWord (x : Int) : Nat := (x % 18446744073709551616).toNat

/-- Signed reading of a 64-bit register pattern, the C type `i64`. -/
def toI64 (w : Nat) : Int :=
  if w % W64 < 9223372036854775808 then ((w % W64 : Nat) : Int)
  else ((w % W64 : Nat) : Int) - 18446744073709551616

/-! ## The register machine -/

/-- General purpose registers. The control registers `rip` and `rsp`, which `call` and `ret`
use to transfer control, are outside the modelled register file. -/
inductive Reg where
  | rax | rbx | rcx | rdx | rsi | rdi | rbp
  | r8 | r9 | r10 | r11 | r12 | r13 | r14 | r15
  deriving DecidableEq, Repr

/-- One executed `syscall` instruction: the seven request registers at the trap
(`rax rdi rsi rdx r10 r8 r9`) and the value the kernel left in `rax`. -/
structure Trap where
  req : List Nat
  ret : Nat
  deriving DecidableEq, Repr

/-- Machine state: registers, memory, and the history of traps executed so far. -/
structure Machine where
  regs : Reg → Nat
  mem : Mem
  traps : List Trap

/-- Register file update. -/
def setReg (regs : Reg → Nat) (r : Reg) (v : Nat) : Reg → Nat :=
  fun q => if q = r then v else regs q

/-- Kernel model. `result` maps the request registers and the memory at the trap to the value
left in `rax`; `after` is everything else the kernel does to registers and memory. -/
structure Kernel where
  result : List Nat → Mem → Nat
  after : Machine → Machine

/-- The four instruction forms used by `syscall_insn` (AT&T operand order: source first). -/
inductive Insn where
  | movRR (src dst : Reg)
  | movMR (off : Nat) (base dst : Reg)
  | syscall
  | ret
  deriving DecidableEq, Repr

/-- Request registers of the Linux x86_64 syscall convention, in slot order. -/
def request (m : Machine) : List Nat :=
  [m.regs .rax, m.regs .rdi, m.regs .rsi, m.regs .rdx, m.regs .r10, m.regs .r8, m.regs .r9]

/-- Explicit destination operand of an instruction, if it has one. -/
def Insn.dest : Insn → Option Reg
  | .movRR _ dst => some dst
  | .movMR _ _ dst => some dst
  | .syscall => none
  | .ret => none

/-- Execution of one instruction. -/
def step (K : Kernel) : Insn → Machine → Machine
  | .movRR src dst, m => { m with regs := setReg m.regs dst (m.regs src) }
  | .movMR off base dst, m =>
      { m with regs := setReg m.regs dst (load64 m.mem ((m.regs base + off) % W64)) }
  | .syscall, m =>
      let k := K.after m
      { regs := setReg k.regs .rax (K.result (request m) m.mem)
        mem := k.mem
        traps := m.traps ++ [⟨request m, K.result (request m) m.mem⟩] }
  | .ret, m => m

/-- Straight-line execution up to and including the first `ret`. -/
def run (K : Kernel) : List Insn → Machine → Machine
  | [], m => m
  | .ret :: _, m => m
  | i :: rest, m => run K rest (step K i m)

/-- State in which the first `syscall` instruction is reached (before it executes). -/
def atTrap (K : Kernel) : List Insn → Machine → Option Machine
  | [], _ => none
  | .ret :: _, _ => none
  | .syscall :: _, m => some m
  | i :: rest, m => atTrap K rest (step K i m)

/-- The inline assembly of `syscall_insn`, instruction by instruction. -/
def syscall_insn_asm : List Insn :=
  [ .movRR .rdi .r11,
    .movMR 0 .r11 .rax,
    .movMR 8 .r11 .rdi,
    .movMR 16 .r11 .rsi,
    .movMR 24 .r11 .rdx,
    .movMR 32 .r11 .r10,
    .movMR 40 .r11 .r8,
    .movMR 48 .r11 .r9,
    .syscall,
    .ret ]

/-- The naked function `syscall_insn`: entered with the address of the argument array in `rdi`,
it runs the assembly and leaves the machine as it is after `ret`. -/
def syscall_insn (K : Kernel) (m : Machine) : Machine := run K syscall_insn_asm m

/-- The `i64` value `syscall_insn` returns: `rax` after `ret`. -/
def syscall_insn_ret (K : Kernel) (m : Machine) : Int := toI64 ((syscall_insn K m).regs .rax)

/-- The seven-slot sequence `s` is stored at byte address `base`. -/
def StoredAt (mem : Mem) (base : Nat) (s : Fin 7 → Nat) : Prop :=
  ∀ i : Fin 7, load64 mem ((base + 8 * i.val) % W64) = s i

instance (mem : Mem) (base : Nat) (s : Fin 7 → Nat) : Decidable (StoredAt mem base s) := by
  unfold StoredAt; infer_instance

/-! ## The C functions of `syscalls.c` -/

/-- The `va_list` of a variadic call, as `va_arg(v, i64)` walks it: `area k` is the `k`-th
word of the variadic argument area and `next` the index of the word read next. -/
structure va_list where
  area : Nat → Int
  next : Nat

/-- The macro `va_start(v, l)` for a call that supplied the variadic arguments `supplied`.
The words of the argument area past the supplied ones are not written by the call: they
are whatever the argument registers and the stack held before it, here `stale`. -/
def va_start (supplied : List Int) (stale : Nat → Int) : va_list :=
  { area := fun k => if k < supplied.length then supplied.getD k 0 else stale k
    next := 0 }

/-- The macro `va_arg(v, i64)`: the next word of the area, and the advanced list. -/
def va_arg (v : va_list) : Int × va_list :=
  (v.area v.next, { v with next := v.next + 1 })

/-- One iteration of the loop body `sys_args[i] = va_arg(args, i64);`. -/
def syscall_body (sys_args : Nat) (st : Mem × va_list) (i : Nat) : Mem × va_list :=
  let r := va_arg st.2
  (store64 st.1 (sys_args + 8 * i) (toWord r.1), r.2)

/-- Memory after `sys_args[0] = nr; for (int i = 1; i < 7; i++) sys_args[i] = va_arg(...)`,
where `sys_args` is the address of the local array. -/
def syscall_fill (mem : Mem) (sys_args : Nat) (nr : Int) (args : va_list) : Mem :=
  ((List.range' 1 6).foldl (syscall_body sys_args)
    (store64 mem sys_args (toWord nr), args)).1

/-- Machine state in which `syscall` enters `syscall_insn`: the array is filled and its
address is the first argument, in `rdi`. -/
def syscall_entry (m : Machine) (sys_args : Nat) (nr : Int)
    (supplied : List Int) (stale : Nat → Int) : Machine :=
  { regs := setReg m.regs .rdi (sys_args % W64)
    mem := syscall_fill m.mem sys_args nr (va_start supplied stale)
    traps := m.traps }

/-- The variadic wrapper `syscall(nr, ...)`, called with the variadic arguments `supplied`;
`sys_args` is the address at which its local array lives. Returns the `i64` result and the
machine state after the call. -/
def syscall (K : Kernel) (m : Machine) (sys_args : Nat) (nr : Int)
    (supplied : List Int) (stale : Nat → Int) : Int × Machine :=
  let entry := syscall_entry m sys_args nr supplied stale
  (syscall_insn_ret K entry, syscall_insn K entry)

/-- The seven words `syscall` writes to its array: `nr` in slot 0, then the values of the six
`va_arg` reads in slots 1 to 6. -/
def handedOver (nr : Int) (supplied : List Int) (stale : Nat → Int) : Fin 7 → Nat :=
  fun i => if i.val = 0 then toWord nr
    else toWord ((va_start supplied stale).area (i.val - 1))

/-- Result of a direct native invocation of syscall number `nr` with arguments `a1 … a6` on
memory `mem`: the value the kernel leaves in `rax`, read as an `i64`. -/
def native (K : Kernel) (nr a1 a2 a3 a4 a5 a6 : Nat) (mem : Mem) : Int :=
  toI64 (K.result [nr, a1, a2, a3, a4, a5, a6] mem)

/-- Wrap-around of an `i64` computation. -/
def wrapI64 (x : Int) : Int := toI64 (toWord x)

/-- The loop `while (*str++) i++;` of `strlen`, `fuel` iterations at most. -/
def strlenLoop : Nat → Mem → Nat → Int → Option Int
  | 0, _, _, _ => none
  | fuel + 1, mem, str, i =>
      if mem (str % W64) % 256 ≠ 0 then strlenLoop fuel mem ((str + 1) % W64) (wrapI64 (i + 1))
      else some i

/-- The function `strlen`. The loop visits consecutive addresses modulo `2 ^ 64`, so within
`2 ^ 64` iterations it has seen every byte of memory: `none` means that no byte is zero and
the C loop does not end. -/
def strlen (mem : Mem) (str : Nat) : Option Int := strlenLoop W64 mem str 0

/-- The bytes of the string literal `"Hello World!"`. -/
def helloBytes : List Nat := "Hello World!".data.map Char.toNat

/-- A NUL-terminated string with bytes `bs` is stored at address `p`. -/
def CStrAt (mem : Mem) (p : Nat) (bs : List Nat) : Prop :=
  (∀ k, k < bs.length → mem ((p + k) % W64) % 256 = bs.getD k 0) ∧
    mem ((p + bs.length) % W64) % 256 = 0

instance (mem : Mem) (p : Nat) (bs : List Nat) : Decidable (CStrAt mem p bs) := by
  unfold CStrAt; infer_instance

/-- The entry point `_start`. `msg` is the address of the string literal, `frame1` and `frame2`
the addresses of the `sys_args` array of the two calls, `stale1` and `stale2` the contents of
the variadic argument area past the supplied arguments. The variadic constants `1` and `0`
reach `va_arg` as the words 1 and 0. `none`: `strlen` does not return. -/
def _start (K : Kernel) (m : Machine) (msg frame1 frame2 : Nat)
    (stale1 stale2 : Nat → Int) : Option Machine :=
  match strlen m.mem msg with
  | none => none
  | some len =>
      let m1 := (syscall K m frame1 1 [1, toI64 msg, len] stale1).2
      let m2 := (syscall K m1 frame2 60 [0] stale2).2
      some m2

/-! ## The mixer of `sudorng.c` -/

/-- The function `xs32` on a `uint32_t` value: each left shift is truncated to 32 bits. -/
def xs32 (i : Nat) : Nat :=
  let i := i ^^^ ((i <<< 13) % 4294967296)
  let i := i ^^^ (i >>> 17)
  let i := i ^^^ ((i <<< 5) % 4294967296)
  i

/-- Conversion of a `long` to `uint32_t` at the call `xs32(v)`. -/
def toU32 (v : Int) : Nat := (v % 4294967296).toNat

/-- The loop `for (int i = 0; i < nr_iterations; i++) v = xs32(v);` of `main`, with `v` a
`long`: `n` is the number of iterations executed. -/
def mainLoop : Nat → Int → Int
  | 0, v => v
  | n + 1, v => mainLoop n ((xs32 (toU32 v) : Nat) : Int)

/-! ## Sample data -/

/-- A kernel model in which every request returns its slot 3 (for `write`: the byte count)
and nothing else changes. -/
def exampleKernel : Kernel :=
  { result := fun req _ => req.getD 3 0
    after := fun m => m }

/-- A request array `[60, 7, 9, 0, 0, 0, 0]`: two meaningful arguments, the rest zero. -/
def exampleSlots : Fin 7 → Nat := fun i => [60, 7, 9, 0, 0, 0, 0].getD i.val 0

/-- Memory holding `exampleSlots` at address 4096 and the string `"Hello World!"` at 8192. -/
def exampleMem : Mem := fun a =>
  if a = 4096 then 60 else if a = 4104 then 7 else if a = 4112 then 9
  else if 8192 ≤ a then helloBytes.getD (a - 8192) 0 else 0

/-- A machine about to enter `syscall_insn` with the array at 4096; every other register
holds 123. -/
def exampleMachine : Machine :=
  { regs := fun r => if r = .rdi then 4096 else 123
    mem := exampleMem
    traps := [] }

/-- A second machine with the same array at a different address (20480) and different
contents in every register, as left behind by some earlier call. -/
def exampleMachine2 : Machine :=
  { regs := fun r => if r = .rdi then 20480 else 456
    mem := fun a => if a = 20480 then 60 else if a = 20488 then 7 else if a = 20496 then 9 else 0
    traps := [⟨[1, 1, 8192, 12, 0, 0, 0], 12⟩] }

/-- Memory holding only the empty string: every byte is zero. -/
def zeroMem : Mem := fun _ => 0

/-! ## Theorems -/

theorem store64_hit (mem : Mem) (a b v j : Nat) (hab : b % W64 = a % W64) (hj : j < 8) :
    store64 mem a v ((b + j) % W64) = (v / 256 ^ j) % 256 := by
  have hd : ((b + j) % W64 % W64 + W64 - a % W64) % W64 = j := by
    unfold W64 at *; omega
  simp only [store64, hd, hj, if_true]

theorem store64_miss (mem : Mem) (a b v j : Nat)
    (hd : 8 ≤ (b % W64 + W64 - a % W64) % W64 ∧ (b % W64 + W64 - a % W64) % W64 + 8 ≤ W64)
    (hj : j < 8) :
    store64 mem a v ((b + j) % W64) = mem ((b + j) % W64) := by
  have hd2 : ¬ ((b + j) % W64 % W64 + W64 - a % W64) % W64 < 8 := by
    unfold W64 at *; omega
  simp only [store64, hd2, if_false]

theorem load64_store64_same (mem : Mem) (a b v : Nat) (hab : b % W64 = a % W64) :
    load64 (store64 mem a v) b = v % W64 := by
  have h0 := store64_hit mem a b v 0 hab (by omega)
  have h1 := store64_hit mem a b v 1 hab (by omega)
  have h2 := store64_hit mem a b v 2 hab (by omega)
  have h3 := store64_hit mem a b v 3 hab (by omega)
  have h4 := store64_hit mem a b v 4 hab (by omega)
  have h5 := store64_hit mem a b v 5 hab (by omega)
  have h6 := store64_hit mem a b v 6 hab (by omega)
  have h7 := store64_hit mem a b v 7 hab (by omega)
  rw [Nat.add_zero] at h0
  simp only [load64, h0, h1, h2, h3, h4, h5, h6, h7]
  have hW : W64 = 256 * (256 * (256 * (256 * (256 * (256 * (256 * 256)))))) := by
    unfold W64; norm_num
  rw [hW]
  simp only [Nat.mod_mul, Nat.mod_mod, Nat.div_div_eq_div_mul]
  norm_num

theorem load64_store64_other (mem : Mem) (a b v : Nat)
    (hd : 8 ≤ (b % W64 + W64 - a % W64) % W64 ∧ (b % W64 + W64 - a % W64) % W64 + 8 ≤ W64) :
    load64 (store64 mem a v) b = load64 mem b := by
  have h0 := store64_miss mem a b v 0 hd (by omega)
  have h1 := store64_miss mem a b v 1 hd (by omega)
  have h2 := store64_miss mem a b v 2 hd (by omega)
  have h3 := store64_miss mem a b v 3 hd (by omega)
  have h4 := store64_miss mem a b v 4 hd (by omega)
  have h5 := store64_miss mem a b v 5 hd (by omega)
  have h6 := store64_miss mem a b v 6 hd (by omega)
  have h7 := store64_miss mem a b v 7 hd (by omega)
  rw [Nat.add_zero] at h0
  simp only [load64, h0, h1, h2, h3, h4, h5, h6, h7]

theorem syscall_insn_trap (K : Kernel) (m : Machine) :
    ∃ t, atTrap K syscall_insn_asm m = some t ∧ syscall_insn K m = step K .syscall t ∧
      t.mem = m.mem ∧ t.traps = m.traps ∧
      t.regs .rax = load64 m.mem ((m.regs .rdi + 0) % W64) ∧
      t.regs .rdi = load64 m.mem ((m.regs .rdi + 8) % W64) ∧
      t.regs .rsi = load64 m.mem ((m.regs .rdi + 16) % W64) ∧
      t.regs .rdx = load64 m.mem ((m.regs .rdi + 24) % W64) ∧
      t.regs .r10 = load64 m.mem ((m.regs .rdi + 32) % W64) ∧
      t.regs .r8 = load64 m.mem ((m.regs .rdi + 40) % W64) ∧
      t.regs .r9 = load64 m.mem ((m.regs .rdi + 48) % W64) ∧
      t.regs .r11 = m.regs .rdi ∧
      ∀ r, r ∉ [Reg.r11, .rax, .rdi, .rsi, .rdx, .r10, .r8, .r9] → t.regs r = m.regs r := by
  refine ⟨_, rfl, rfl, rfl, rfl, ?_⟩
  simp only [step, setReg]
  refine ⟨by simp, by simp, by simp, by simp, by simp, by simp, by simp, by simp, ?_⟩
  intro r hr
  simp only [List.mem_cons, List.mem_singleton, List.not_mem_nil, or_false, not_or] at hr
  obtain ⟨h1, h2, h3, h4, h5, h6, h7, h8⟩ := hr
  simp [h1, h2, h3, h4, h5, h6, h7, h8]

theorem storedAt_slots {mem : Mem} {base : Nat} {s : Fin 7 → Nat} (h : StoredAt mem base s) :
    load64 mem ((base + 0) % W64) = s 0 ∧ load64 mem ((base + 8) % W64) = s 1 ∧
    load64 mem ((base + 16) % W64) = s 2 ∧ load64 mem ((base + 24) % W64) = s 3 ∧
    load64 mem ((base + 32) % W64) = s 4 ∧ load64 mem ((base + 40) % W64) = s 5 ∧
    load64 mem ((base + 48) % W64) = s 6 :=
  ⟨h 0, h 1, h 2, h 3, h 4, h 5, h 6⟩

/-- C1: when the seven-slot sequence `s` is stored at the address held in `rdi` on entry, the
`syscall` instruction of `syscall_insn` is reached with `rax, rdi, rsi, rdx, r10, r8, r9`
holding `s 0 … s 6`; the base address sits in `r11`, which is none of these seven registers,
and the trap that is executed carries exactly this request. -/
theorem syscall_insn_loads_slots (K : Kernel) (m : Machine) (s : Fin 7 → Nat)
    (h : StoredAt m.mem (m.regs .rdi) s) :
    (atTrap K syscall_insn_asm m).map
        (fun t => (t.regs .rax, t.regs .rdi, t.regs .rsi, t.regs .rdx,
                   t.regs .r10, t.regs .r8, t.regs .r9))
      = some (s 0, s 1, s 2, s 3, s 4, s 5, s 6) ∧
    (atTrap K syscall_insn_asm m).map (fun t => t.regs .r11) = some (m.regs .rdi) ∧
    Reg.r11 ∉ [Reg.rax, .rdi, .rsi, .rdx, .r10, .r8, .r9] ∧
    ((syscall_insn K m).traps.map Trap.req
      = m.traps.map Trap.req ++ [[s 0, s 1, s 2, s 3, s 4, s 5, s 6]]) := by
  obtain ⟨t, ht, hrun, -, htr, h0, h1, h2, h3, h4, h5, h6, h11, -⟩ := syscall_insn_trap K m
  obtain ⟨e0, e1, e2, e3, e4, e5, e6⟩ := storedAt_slots h
  rw [e0] at h0; rw [e1] at h1; rw [e2] at h2; rw [e3] at h3
  rw [e4] at h4; rw [e5] at h5; rw [e6] at h6
  refine ⟨?_, ?_, by decide, ?_⟩
  · simp [ht, h0, h1, h2, h3, h4, h5, h6]
  · simp [ht, h11]
  · simp [hrun, step, request, htr, h0, h1, h2, h3, h4, h5, h6]

theorem syscall_insn_loads_slots_witness :
    StoredAt exampleMachine.mem (exampleMachine.regs .rdi) exampleSlots ∧
    (atTrap exampleKernel syscall_insn_asm exampleMachine).map
        (fun t => (t.regs .rax, t.regs .rdi, t.regs .rsi, t.regs .rdx,
                   t.regs .r10, t.regs .r8, t.regs .r9))
      = some (60, 7, 9, 0, 0, 0, 0) :=
  ⟨by decide,
   (syscall_insn_loads_slots exampleKernel exampleMachine exampleSlots (by decide)).1⟩

theorem toWord_lt (x : Int) : toWord x < W64 := by
  unfold toWord W64
  have := Int.emod_lt_of_pos x (show (0 : Int) < 18446744073709551616 by norm_num)
  have := Int.emod_nonneg x (show (18446744073709551616 : Int) ≠ 0 by norm_num)
  omega

theorem toWord_mod (x : Int) : toWord x % W64 = toWord x := Nat.mod_eq_of_lt (toWord_lt x)

/-- The array written by `syscall`: slot 0 is `nr`, slot `i` is the `i`-th word of the
variadic argument area. -/
theorem syscall_fill_slots (mem : Mem) (p : Nat) (nr : Int) (args : va_list) :
    StoredAt (syscall_fill mem p nr args) (p % W64)
      (fun i => if i.val = 0 then toWord nr else toWord (args.area (args.next + (i.val - 1)))) := by
  intro i
  simp only [syscall_fill, List.range', List.foldl, syscall_body, va_arg]
  fin_cases i <;> simp only [Fin.zero_eta, Fin.mk_one, Fin.reduceFinMk, Fin.val_zero, Fin.val_one,
      Fin.isValue, Nat.add_assoc, Nat.reduceAdd, Nat.reduceMul, Nat.reduceSub] <;>
    (repeat rw [load64_store64_other _ _ _ _ (by unfold W64; omega)]) <;>
    rw [load64_store64_same _ _ _ _ (by unfold W64; omega)] <;>
    simp [toWord_mod]

theorem syscall_insn_effect (K : Kernel) (m : Machine) (s : Fin 7 → Nat)
    (h : StoredAt m.mem (m.regs .rdi) s) :
    (syscall_insn K m).traps
        = m.traps ++ [⟨[s 0, s 1, s 2, s 3, s 4, s 5, s 6],
                       K.result [s 0, s 1, s 2, s 3, s 4, s 5, s 6] m.mem⟩] ∧
    (syscall_insn K m).regs .rax = K.result [s 0, s 1, s 2, s 3, s 4, s 5, s 6] m.mem := by
  obtain ⟨t, -, hrun, hmem, htr, h0, h1, h2, h3, h4, h5, h6, -, -⟩ := syscall_insn_trap K m
  obtain ⟨e0, e1, e2, e3, e4, e5, e6⟩ := storedAt_slots h
  rw [e0] at h0; rw [e1] at h1; rw [e2] at h2; rw [e3] at h3
  rw [e4] at h4; rw [e5] at h5; rw [e6] at h6
  have hreq : request t = [s 0, s 1, s 2, s 3, s 4, s 5, s 6] := by
    simp [request, h0, h1, h2, h3, h4, h5, h6]
  constructor
  · simp [hrun, step, hreq, htr, hmem]
  · simp [hrun, step, hreq, setReg, hmem]

theorem syscall_entry_slots (m : Machine) (p : Nat) (nr : Int) (supplied : List Int)
    (stale : Nat → Int) :
    StoredAt (syscall_entry m p nr supplied stale).mem
      ((syscall_entry m p nr supplied stale).regs .rdi) (handedOver nr supplied stale) := by
  intro i
  have h := syscall_fill_slots m.mem p nr (va_start supplied stale) i
  have hr : (syscall_entry m p nr supplied stale).regs .rdi = p % W64 := by
    simp [syscall_entry, setReg]
  rw [hr]
  simpa [syscall_entry, handedOver, va_start] using h

/-- C2: `syscall_insn` returns exactly what the kernel model yields for the seven stored slots
and the trap-time memory (the result of a direct native invocation), executing one trap;
`syscall` returns the value of `syscall_insn` unchanged, after exactly one trap. -/
theorem syscall_result_verbatim (K : Kernel) (m : Machine) (s : Fin 7 → Nat)
    (h : StoredAt m.mem (m.regs .rdi) s) :
    syscall_insn_ret K m = native K (s 0) (s 1) (s 2) (s 3) (s 4) (s 5) (s 6) m.mem ∧
    (syscall_insn K m).traps
        = m.traps ++ [⟨[s 0, s 1, s 2, s 3, s 4, s 5, s 6],
                       K.result [s 0, s 1, s 2, s 3, s 4, s 5, s 6] m.mem⟩] ∧
    ∀ (m0 : Machine) (sys_args : Nat) (nr : Int) (supplied : List Int) (stale : Nat → Int),
      (syscall K m0 sys_args nr supplied stale).1
          = syscall_insn_ret K (syscall_entry m0 sys_args nr supplied stale) ∧
      (syscall K m0 sys_args nr supplied stale).1
          = native K (handedOver nr supplied stale 0) (handedOver nr supplied stale 1)
              (handedOver nr supplied stale 2) (handedOver nr supplied stale 3)
              (handedOver nr supplied stale 4) (handedOver nr supplied stale 5)
              (handedOver nr supplied stale 6) (syscall_entry m0 sys_args nr supplied stale).mem ∧
      (syscall K m0 sys_args nr supplied stale).2.traps.length = m0.traps.length + 1 := by
  refine ⟨?_, (syscall_insn_effect K m s h).1, ?_⟩
  · simp [syscall_insn_ret, native, (syscall_insn_effect K m s h).2]
  · intro m0 p nr supplied stale
    have he := syscall_insn_effect K _ _ (syscall_entry_slots m0 p nr supplied stale)
    refine ⟨rfl, ?_, ?_⟩
    · simp [syscall, syscall_insn_ret, native, he.2]
    · rw [show (syscall K m0 p nr supplied stale).2
            = syscall_insn K (syscall_entry m0 p nr supplied stale) from rfl, he.1]
      simp [syscall_entry]

theorem syscall_result_verbatim_witness :
    StoredAt exampleMachine.mem (exampleMachine.regs .rdi) exampleSlots ∧
    syscall_insn_ret exampleKernel exampleMachine = 0 ∧
    (syscall exampleKernel exampleMachine 16384 1 [1, 8192, 12] (fun _ => 5)).1 = 12 := by
  have h := syscall_result_verbatim exampleKernel exampleMachine exampleSlots (by decide)
  refine ⟨by decide, ?_, ?_⟩
  · rw [h.1]; decide
  · rw [(h.2.2 exampleMachine 16384 1 [1, 8192, 12] (fun _ => 5)).2.1]; decide

/-- C3: with six variadic arguments `a1 … a6`, `syscall` enters `syscall_insn` with `rdi`
pointing at an array of exactly seven words `[nr, a1, a2, a3, a4, a5, a6]` (each `i64` as
its 64-bit pattern), in the caller's order, and that is the request of the trap. -/
theorem syscall_passes_seven_words (K : Kernel) (m : Machine) (sys_args : Nat)
    (nr a1 a2 a3 a4 a5 a6 : Int) (stale : Nat → Int) :
    (syscall_entry m sys_args nr [a1, a2, a3, a4, a5, a6] stale).regs .rdi = sys_args % W64 ∧
    StoredAt (syscall_entry m sys_args nr [a1, a2, a3, a4, a5, a6] stale).mem
      ((syscall_entry m sys_args nr [a1, a2, a3, a4, a5, a6] stale).regs .rdi)
      (fun i => [toWord nr, toWord a1, toWord a2, toWord a3, toWord a4, toWord a5,
                 toWord a6].getD i.val 0) ∧
    (syscall K m sys_args nr [a1, a2, a3, a4, a5, a6] stale).2.traps.map Trap.req
      = m.traps.map Trap.req ++
          [[toWord nr, toWord a1, toWord a2, toWord a3, toWord a4, toWord a5, toWord a6]] := by
  have hs := syscall_entry_slots m sys_args nr [a1, a2, a3, a4, a5, a6] stale
  have hfun : handedOver nr [a1, a2, a3, a4, a5, a6] stale
      = (fun i => [toWord nr, toWord a1, toWord a2, toWord a3, toWord a4, toWord a5,
                 toWord a6].getD i.val 0) := by
    funext i
    fin_cases i <;> simp [handedOver, va_start]
  refine ⟨by simp [syscall_entry, setReg], ?_, ?_⟩
  · rw [← hfun]; exact hs
  · have he := (syscall_insn_effect K _ _ hs).1
    rw [show (syscall K m sys_args nr [a1, a2, a3, a4, a5, a6] stale).2
          = syscall_insn K (syscall_entry m sys_args nr [a1, a2, a3, a4, a5, a6] stale) from rfl,
      he, hfun]
    simp only [syscall_entry, List.map_append, List.map_cons, List.map_nil]
    rfl

/-- C4 (as stated) fails: `syscall(60, 0)` entered with the argument area holding 99 past the
one supplied argument traps with slots 2 to 6 equal to 99, not 0. -/
theorem syscall_unused_slots_not_zeroed :
    [(0 : Int)].length < 6 ∧
    load64 (syscall_entry exampleMachine 16384 60 [0] (fun _ => 99)).mem (16384 + 8 * 2) = 99 ∧
    (syscall exampleKernel exampleMachine 16384 60 [0] (fun _ => 99)).2.traps.map Trap.req
      = [[60, 0, 99, 99, 99, 99, 99]] := by
  refine ⟨by decide, by decide, ?_⟩
  have hs := syscall_entry_slots exampleMachine 16384 60 [0] (fun _ => 99)
  have he := (syscall_insn_effect exampleKernel _ _ hs).1
  rw [show (syscall exampleKernel exampleMachine 16384 60 [0] (fun _ => 99)).2
        = syscall_insn exampleKernel (syscall_entry exampleMachine 16384 60 [0] (fun _ => 99))
        from rfl, he]
  decide

/-- C4 (amended): with `k < 6` variadic arguments, slots 1 to `k` of the array hold the
supplied arguments and slots `k+1` to 6 hold the words found in the variadic argument area
past them; these are the words loaded into the request registers at the trap, and they are
zero when those stale words are zero. -/
theorem syscall_unused_slots_stale (K : Kernel) (m : Machine) (sys_args : Nat) (nr : Int)
    (supplied : List Int) (stale : Nat → Int) (hk : supplied.length < 6) :
    StoredAt (syscall_entry m sys_args nr supplied stale).mem
      ((syscall_entry m sys_args nr supplied stale).regs .rdi)
      (fun i => if i.val = 0 then toWord nr
        else if i.val ≤ supplied.length then toWord (supplied.getD (i.val - 1) 0)
        else toWord (stale (i.val - 1))) ∧
    (∀ i : Fin 7, supplied.length < i.val →
      (((syscall K m sys_args nr supplied stale).2.traps.map Trap.req).getLastD []).getD i.val 0
        = toWord (stale (i.val - 1))) ∧
    ((∀ j, supplied.length ≤ j → j < 6 → stale j = 0) →
      ∀ i : Fin 7, supplied.length < i.val →
        load64 (syscall_entry m sys_args nr supplied stale).mem
          (((syscall_entry m sys_args nr supplied stale).regs .rdi + 8 * i.val) % W64) = 0) := by
  have hs := syscall_entry_slots m sys_args nr supplied stale
  have hfun : handedOver nr supplied stale
      = (fun i => if i.val = 0 then toWord nr
        else if i.val ≤ supplied.length then toWord (supplied.getD (i.val - 1) 0)
        else toWord (stale (i.val - 1))) := by
    funext i
    by_cases h0 : i.val = 0
    · simp [handedOver, h0]
    · by_cases h1 : i.val ≤ supplied.length
      · have : i.val - 1 < supplied.length := by omega
        simp [handedOver, va_start, h0, h1, this]
      · have : ¬ i.val - 1 < supplied.length := by omega
        simp [handedOver, va_start, h0, h1, this]
  have hslot : ∀ i : Fin 7, supplied.length < i.val →
      handedOver nr supplied stale i = toWord (stale (i.val - 1)) := by
    intro i hi
    have h0 : i.val ≠ 0 := by omega
    have h1 : ¬ i.val ≤ supplied.length := by omega
    rw [hfun]; simp [h0, h1]
  refine ⟨by rw [← hfun]; exact hs, ?_, ?_⟩
  · intro i hi
    have he := (syscall_insn_effect K _ _ hs).1
    rw [show (syscall K m sys_args nr supplied stale).2
          = syscall_insn K (syscall_entry m sys_args nr supplied stale) from rfl, he]
    simp only [List.map_append, List.map_cons, List.map_nil, List.getLastD_concat]
    rw [← hslot i hi]
    fin_cases i <;> rfl
  · intro hz i hi
    rw [hs i, hslot i hi, hz (i.val - 1) (by omega) (by omega)]
    rfl

theorem syscall_unused_slots_stale_witness :
    [(0 : Int)].length < 6 ∧
    StoredAt (syscall_entry exampleMachine 16384 60 [0] (fun _ => 99)).mem
      ((syscall_entry exampleMachine 16384 60 [0] (fun _ => 99)).regs .rdi)
      (fun i => if i.val = 0 then toWord 60
        else if i.val ≤ [(0 : Int)].length then toWord ([(0 : Int)].getD (i.val - 1) 0)
        else toWord ((fun _ => (99 : Int)) (i.val - 1))) :=
  ⟨by decide,
   (syscall_unused_slots_stale exampleKernel exampleMachine 16384 60 [0] (fun _ => 99)
      (by decide)).1⟩

theorem syscall_fill_congr (mem : Mem) (p : Nat) (nr : Int) (args args2 : va_list)
    (h : ∀ j, j < 6 → args.area (args.next + j) = args2.area (args2.next + j)) :
    syscall_fill mem p nr args = syscall_fill mem p nr args2 := by
  have h0 := h 0 (by omega)
  have h1 := h 1 (by omega)
  have h2 : args.area (args.next + 1 + 1) = args2.area (args2.next + 1 + 1) := h 2 (by omega)
  have h3 : args.area (args.next + 1 + 1 + 1) = args2.area (args2.next + 1 + 1 + 1) :=
    h 3 (by omega)
  have h4 : args.area (args.next + 1 + 1 + 1 + 1) = args2.area (args2.next + 1 + 1 + 1 + 1) :=
    h 4 (by omega)
  have h5 : args.area (args.next + 1 + 1 + 1 + 1 + 1)
      = args2.area (args2.next + 1 + 1 + 1 + 1 + 1) := h 5 (by omega)
  rw [Nat.add_zero, Nat.add_zero] at h0
  simp only [syscall_fill, List.range', List.foldl, syscall_body, va_arg, h0, h1, h2, h3, h4, h5]

/-- C5 (as stated) fails: a call with eight trailing arguments is not rejected; it executes a
trap whose request is built from the first six, and the last two are dropped. -/
theorem syscall_extra_args_not_rejected :
    6 < [(1 : Int), 2, 3, 4, 5, 6, 7, 8].length ∧
    (syscall exampleKernel exampleMachine 16384 1 [1, 2, 3, 4, 5, 6, 7, 8] (fun _ => 0)).2.traps
      ≠ exampleMachine.traps ∧
    (syscall exampleKernel exampleMachine 16384 1 [1, 2, 3, 4, 5, 6, 7, 8]
        (fun _ => 0)).2.traps.map Trap.req
      = [[1, 1, 2, 3, 4, 5, 6]] := by
  have hs := syscall_entry_slots exampleMachine 16384 1 [1, 2, 3, 4, 5, 6, 7, 8] (fun _ => 0)
  have he := (syscall_insn_effect exampleKernel _ _ hs).1
  rw [show (syscall exampleKernel exampleMachine 16384 1 [1, 2, 3, 4, 5, 6, 7, 8] (fun _ => 0)).2
        = syscall_insn exampleKernel
            (syscall_entry exampleMachine 16384 1 [1, 2, 3, 4, 5, 6, 7, 8] (fun _ => 0))
        from rfl, he]
  refine ⟨by decide, ?_, by decide⟩
  simp [syscall_entry, exampleMachine]

/-- C5 (amended): `syscall` has no arity check. A call with more than six trailing arguments
executes exactly one trap, whose request is `nr` followed by the first six arguments; the
arguments after the sixth are never read, so the call behaves as the call with only the first
six. -/
theorem syscall_extra_args_ignored (K : Kernel) (m : Machine) (sys_args : Nat) (nr : Int)
    (supplied : List Int) (stale stale2 : Nat → Int) (h : 6 < supplied.length) :
    syscall K m sys_args nr supplied stale = syscall K m sys_args nr (supplied.take 6) stale2 ∧
    (syscall K m sys_args nr supplied stale).2.traps.map Trap.req
      = m.traps.map Trap.req ++
          [[toWord nr, toWord (supplied.getD 0 0), toWord (supplied.getD 1 0),
            toWord (supplied.getD 2 0), toWord (supplied.getD 3 0),
            toWord (supplied.getD 4 0), toWord (supplied.getD 5 0)]] := by
  have hlen : (supplied.take 6).length = 6 := by simp [List.length_take]; omega
  have hentry : syscall_entry m sys_args nr supplied stale
      = syscall_entry m sys_args nr (supplied.take 6) stale2 := by
    have hfill : syscall_fill m.mem sys_args nr (va_start supplied stale)
        = syscall_fill m.mem sys_args nr (va_start (supplied.take 6) stale2) := by
      apply syscall_fill_congr
      intro j hj
      have hj2 : j < supplied.length := by omega
      simp only [va_start, Nat.zero_add, hlen, hj, hj2, if_true]
      simp [List.getD_eq_getElem?_getD, List.getElem?_take, hj]
    simp only [syscall_entry, hfill]
  have hs := syscall_entry_slots m sys_args nr supplied stale
  have he := (syscall_insn_effect K _ _ hs).1
  have hfun : ∀ i : Fin 7, handedOver nr supplied stale i
      = [toWord nr, toWord (supplied.getD 0 0), toWord (supplied.getD 1 0),
            toWord (supplied.getD 2 0), toWord (supplied.getD 3 0),
            toWord (supplied.getD 4 0), toWord (supplied.getD 5 0)].getD i.val 0 := by
    intro i
    have h1 : 1 < supplied.length := by omega
    have h2 : 2 < supplied.length := by omega
    have h3 : 3 < supplied.length := by omega
    have h4 : 4 < supplied.length := by omega
    have h5 : 5 < supplied.length := by omega
    have h0 : 0 < supplied.length := by omega
    fin_cases i <;> simp [handedOver, va_start, h0, h1, h2, h3, h4, h5]
  constructor
  · simp only [syscall, hentry]
  · rw [show (syscall K m sys_args nr supplied stale).2
          = syscall_insn K (syscall_entry m sys_args nr supplied stale) from rfl, he]
    simp only [syscall_entry, List.map_append, List.map_cons, List.map_nil, hfun]
    rfl

theorem syscall_extra_args_ignored_witness :
    6 < [(1 : Int), 2, 3, 4, 5, 6, 7, 8].length ∧
    syscall exampleKernel exampleMachine 16384 1 [1, 2, 3, 4, 5, 6, 7, 8] (fun _ => 0)
      = syscall exampleKernel exampleMachine 16384 1
          ([(1 : Int), 2, 3, 4, 5, 6, 7, 8].take 6) (fun _ => 5) :=
  ⟨by decide,
   (syscall_extra_args_ignored exampleKernel exampleMachine 16384 1 [1, 2, 3, 4, 5, 6, 7, 8]
      (fun _ => 0) (fun _ => 5) (by decide)).1⟩

/-- C6: the request registers at the trap are a function of the seven words stored at the
address in `rdi` alone: two entry states (and kernels) that agree on these seven words reach
the `syscall` instruction with equal `rax, rdi, rsi, rdx, r10, r8, r9`, whatever their other
registers, memory and trap history are. -/
theorem syscall_insn_request_independent (K1 K2 : Kernel) (m1 m2 : Machine)
    (h : ∀ i : Fin 7, load64 m1.mem ((m1.regs .rdi + 8 * i.val) % W64)
                    = load64 m2.mem ((m2.regs .rdi + 8 * i.val) % W64)) :
    (atTrap K1 syscall_insn_asm m1).isSome ∧
    (atTrap K1 syscall_insn_asm m1).map request = (atTrap K2 syscall_insn_asm m2).map request := by
  obtain ⟨t1, ht1, -, -, -, a0, a1, a2, a3, a4, a5, a6, -, -⟩ := syscall_insn_trap K1 m1
  obtain ⟨t2, ht2, -, -, -, b0, b1, b2, b3, b4, b5, b6, -, -⟩ := syscall_insn_trap K2 m2
  have e0 : load64 m1.mem ((m1.regs .rdi + 0) % W64)
      = load64 m2.mem ((m2.regs .rdi + 0) % W64) := h 0
  have e1 : load64 m1.mem ((m1.regs .rdi + 8) % W64)
      = load64 m2.mem ((m2.regs .rdi + 8) % W64) := h 1
  have e2 : load64 m1.mem ((m1.regs .rdi + 16) % W64)
      = load64 m2.mem ((m2.regs .rdi + 16) % W64) := h 2
  have e3 : load64 m1.mem ((m1.regs .rdi + 24) % W64)
      = load64 m2.mem ((m2.regs .rdi + 24) % W64) := h 3
  have e4 : load64 m1.mem ((m1.regs .rdi + 32) % W64)
      = load64 m2.mem ((m2.regs .rdi + 32) % W64) := h 4
  have e5 : load64 m1.mem ((m1.regs .rdi + 40) % W64)
      = load64 m2.mem ((m2.regs .rdi + 40) % W64) := h 5
  have e6 : load64 m1.mem ((m1.regs .rdi + 48) % W64)
      = load64 m2.mem ((m2.regs .rdi + 48) % W64) := h 6
  rw [ht1, ht2]
  refine ⟨rfl, ?_⟩
  simp only [Option.map_some', request, a0, a1, a2, a3, a4, a5, a6, b0, b1, b2, b3, b4, b5, b6,
    e0, e1, e2, e3, e4, e5, e6]

theorem syscall_insn_request_independent_witness :
    (∀ i : Fin 7,
      load64 exampleMachine.mem ((exampleMachine.regs .rdi + 8 * i.val) % W64)
        = load64 exampleMachine2.mem ((exampleMachine2.regs .rdi + 8 * i.val) % W64)) ∧
    exampleMachine.regs .rbx ≠ exampleMachine2.regs .rbx ∧
    (atTrap exampleKernel syscall_insn_asm exampleMachine).map request
      = (atTrap exampleKernel syscall_insn_asm exampleMachine2).map request :=
  ⟨by decide, by decide,
   (syscall_insn_request_independent exampleKernel exampleKernel exampleMachine exampleMachine2
      (by decide)).2⟩

/-- C7: if the kernel changes no register other than `rax`, `rcx` and `r11`, then `rbx`, `rbp`,
`r12`, `r13`, `r14` and `r15` hold on return from `syscall_insn` what they held on entry. The
destination operands of the routine are exactly `r11, rax, rdi, rsi, rdx, r10, r8, r9`, every
other register is untouched when the trap is reached, and on return every register outside
this list other than `rcx` is as on entry. -/
theorem syscall_insn_preserves_callee_saved (K : Kernel) (m : Machine)
    (hK : ∀ (x : Machine) (r : Reg), r ≠ .rax → r ≠ .rcx → r ≠ .r11 →
      (K.after x).regs r = x.regs r) :
    (∀ r ∈ [Reg.rbx, .rbp, .r12, .r13, .r14, .r15], (syscall_insn K m).regs r = m.regs r) ∧
    syscall_insn_asm.filterMap Insn.dest = [Reg.r11, .rax, .rdi, .rsi, .rdx, .r10, .r8, .r9] ∧
    (∀ r, r ∉ [Reg.r11, .rax, .rdi, .rsi, .rdx, .r10, .r8, .r9] →
      (atTrap K syscall_insn_asm m).map (fun t => t.regs r) = some (m.regs r)) ∧
    (∀ r, r ∉ [Reg.r11, .rax, .rdi, .rsi, .rdx, .r10, .r8, .r9] → r ≠ .rcx →
      (syscall_insn K m).regs r = m.regs r) := by
  obtain ⟨t, ht, hrun, -, -, -, -, -, -, -, -, -, -, hfr⟩ := syscall_insn_trap K m
  have hafter : ∀ r, r ∉ [Reg.r11, .rax, .rdi, .rsi, .rdx, .r10, .r8, .r9] → r ≠ .rcx →
      (syscall_insn K m).regs r = m.regs r := by
    intro r hr hc
    have hr2 := hr
    simp only [List.mem_cons, List.mem_singleton, List.not_mem_nil, or_false, not_or] at hr2
    rw [hrun]
    simp only [step, setReg, hr2.2.1, if_false]
    rw [hK t r hr2.2.1 hc hr2.1, hfr r hr]
  refine ⟨?_, by decide, ?_, hafter⟩
  · intro r hr
    simp only [List.mem_cons, List.mem_singleton, List.not_mem_nil, or_false] at hr
    rcases hr with h | h | h | h | h | h <;> subst h <;>
      exact hafter _ (by decide) (by decide)
  · intro r hr
    rw [ht]
    simp [hfr r hr]

theorem syscall_insn_preserves_callee_saved_witness :
    (∀ (x : Machine) (r : Reg), r ≠ .rax → r ≠ .rcx → r ≠ .r11 →
      (exampleKernel.after x).regs r = x.regs r) ∧
    (∀ r ∈ [Reg.rbx, .rbp, .r12, .r13, .r14, .r15],
      (syscall_insn exampleKernel exampleMachine).regs r = exampleMachine.regs r) :=
  ⟨fun _ _ _ _ _ => rfl,
   (syscall_insn_preserves_callee_saved exampleKernel exampleMachine
      (fun _ _ _ _ _ => rfl)).1⟩

theorem wrapI64_small (j : Nat) (h : j < 9223372036854775808) : wrapI64 (j : Int) = (j : Int) := by
  have h1 : toWord (j : Int) = j := by
    unfold toWord
    omega
  unfold wrapI64
  rw [h1]
  unfold toI64 W64
  have h2 : j % 18446744073709551616 = j := Nat.mod_eq_of_lt (by omega)
  rw [h2]
  simp [h]

theorem strlenLoop_counts (mem : Mem) (str n : Nat) (hn : n < 9223372036854775808)
    (hnz : ∀ k, k < n → mem ((str + k) % W64) % 256 ≠ 0)
    (hz : mem ((str + n) % W64) % 256 = 0) :
    ∀ (d fuel j : Nat), j + d = n → d < fuel →
      strlenLoop fuel mem ((str + j) % W64) (j : Int) = some (n : Int) := by
  intro d
  induction d with
  | zero =>
    intro fuel j hj hf
    obtain ⟨f, rfl⟩ : ∃ f, fuel = f + 1 := ⟨fuel - 1, by omega⟩
    have hjn : j = n := by omega
    subst hjn
    simp [strlenLoop, hz]
  | succ d ih =>
    intro fuel j hj hf
    obtain ⟨f, rfl⟩ : ∃ f, fuel = f + 1 := ⟨fuel - 1, by omega⟩
    have hb := hnz j (by omega)
    have ha : ((str + j) % W64 + 1) % W64 = (str + (j + 1)) % W64 := by
      unfold W64; omega
    have hw : wrapI64 ((j : Int) + 1) = ((j + 1 : Nat) : Int) := by
      have := wrapI64_small (j + 1) (by omega)
      simpa using this
    simp only [strlenLoop, Nat.mod_mod, ne_eq, hb, not_false_eq_true, if_true, ha, hw]
    exact ih f (j + 1) (by omega) (by omega)

theorem strlenLoop_mod (fuel : Nat) (mem : Mem) (a : Nat) (i : Int) :
    strlenLoop fuel mem (a % W64) i = strlenLoop fuel mem a i := by
  cases fuel with
  | zero => rfl
  | succ f =>
    have ha : (a % W64 + 1) % W64 = (a + 1) % W64 := by unfold W64; omega
    simp only [strlenLoop, Nat.mod_mod, ha]

/-- C9: if the `n` bytes from `str` on are non-zero and the byte at index `n` is zero, with
`n < 2^63`, then `strlen` returns (it does not run forever) and its value is `n`, the number of
bytes before the first NUL. -/
theorem strlen_returns_length (mem : Mem) (str n : Nat) (hn : n < 2 ^ 63)
    (hnz : ∀ k, k < n → mem ((str + k) % W64) % 256 ≠ 0)
    (hz : mem ((str + n) % W64) % 256 = 0) :
    strlen mem str = some (n : Int) := by
  have hn2 : n < 9223372036854775808 := by norm_num at hn; exact hn
  have h := strlenLoop_counts mem str n hn2 hnz hz n W64 0 (by omega) (by unfold W64; omega)
  rw [Nat.add_zero, strlenLoop_mod] at h
  exact h

theorem strlen_returns_length_witness :
    CStrAt exampleMem 8192 helloBytes ∧ helloBytes.length = 12 ∧
    strlen exampleMem 8192 = some 12 ∧ strlen zeroMem 0 = some 0 :=
  ⟨by decide, by decide,
   strlen_returns_length exampleMem 8192 12 (by norm_num) (by decide) (by decide),
   strlen_returns_length zeroMem 0 0 (by norm_num) (by decide) (by decide)⟩

theorem toWord_toI64 (w : Nat) : toWord (toI64 w) = w % W64 := by
  unfold toWord toI64 W64
  split <;> omega

theorem syscall_fill_other (mem : Mem) (p : Nat) (nr : Int) (args : va_list) (x : Nat)
    (h : 56 ≤ (x % W64 + W64 - p % W64) % W64) :
    syscall_fill mem p nr args x = mem x := by
  simp only [syscall_fill, List.range', List.foldl, syscall_body, va_arg, store64]
  rw [if_neg (by unfold W64 at *; omega), if_neg (by unfold W64 at *; omega),
    if_neg (by unfold W64 at *; omega), if_neg (by unfold W64 at *; omega),
    if_neg (by unfold W64 at *; omega), if_neg (by unfold W64 at *; omega),
    if_neg (by unfold W64 at *; omega)]

theorem cstrAt_hello {mem : Mem} {msg : Nat} (h : CStrAt mem msg helloBytes) :
    strlen mem msg = some 12 := by
  have hl : helloBytes.length = 12 := by decide
  obtain ⟨hb, hz⟩ := h
  rw [hl] at hb hz
  have hnz : ∀ k, k < 12 → mem ((msg + k) % W64) % 256 ≠ 0 := by
    intro k hk
    rw [hb k hk]
    interval_cases k <;> decide
  have h := strlenLoop_counts mem msg 12 (by norm_num) hnz hz 12 W64 0 (by omega)
    (by unfold W64; omega)
  rw [Nat.add_zero, strlenLoop_mod] at h
  exact h

/-- C8: when memory holds the string `"Hello World!"` at `msg`, `_start` runs to its end and
issues exactly two traps, in this order: first a request with slots 0 to 3 equal to
`(1, 1, msg, 12)`, the length 12 being the value of `strlen`, then a request with slots 0 and 1
equal to `(60, 0)`. If the array of the first call lies clear of the string, the 13 bytes are
still at `msg` in the memory the first trap sees; under a kernel in which `write` to
descriptor 1 returns its byte count, the first trap returns 12. -/
theorem start_issues_write_then_exit (K : Kernel) (m : Machine) (msg frame1 frame2 : Nat)
    (stale1 stale2 : Nat → Int) (hmsg : CStrAt m.mem msg helloBytes) :
    ∃ t1 t2 : Trap,
      (_start K m msg frame1 frame2 stale1 stale2).map (fun x => x.traps)
        = some (m.traps ++ [t1, t2]) ∧
      t1.req.length = 7 ∧ t1.req.take 4 = [1, 1, msg % W64, 12] ∧
      t2.req.length = 7 ∧ t2.req.take 2 = [60, 0] ∧
      strlen m.mem msg = some 12 ∧
      ((∀ k, k < 13 → 56 ≤ ((msg + k) % W64 + W64 - frame1 % W64) % W64) →
        CStrAt (syscall_entry m frame1 1 [1, toI64 msg, 12] stale1).mem msg helloBytes) ∧
      ((∀ (buf n : Nat) (rest : List Nat) (mem : Mem),
          K.result (1 :: 1 :: buf :: n :: rest) mem = n) → t1.ret = 12) := by
  have hlen := cstrAt_hello hmsg
  have hs1 := syscall_entry_slots m frame1 1 [1, toI64 msg, 12] stale1
  have he1 := (syscall_insn_effect K _ _ hs1).1
  set m1 := (syscall K m frame1 1 [1, toI64 msg, 12] stale1).2 with hm1
  have hs2 := syscall_entry_slots m1 frame2 60 [0] stale2
  have he2 := (syscall_insn_effect K _ _ hs2).1
  have hm1t : m1.traps = _ := he1
  have hstart : _start K m msg frame1 frame2 stale1 stale2
      = some (syscall_insn K (syscall_entry m1 frame2 60 [0] stale2)) := by
    simp only [_start, hlen]
    rfl
  have w1 : toWord 1 = 1 := by decide
  have w12 : toWord 12 = 12 := by decide
  have w60 : toWord 60 = 60 := by decide
  have w0 : toWord 0 = 0 := by decide
  have a0 : handedOver 1 [1, toI64 msg, 12] stale1 0 = 1 := by simp [handedOver, w1]
  have a1 : handedOver 1 [1, toI64 msg, 12] stale1 1 = 1 := by simp [handedOver, va_start, w1]
  have a2 : handedOver 1 [1, toI64 msg, 12] stale1 2 = msg % W64 := by
    simp [handedOver, va_start, toWord_toI64]
  have a3 : handedOver 1 [1, toI64 msg, 12] stale1 3 = 12 := by
    have v3 : ((3 : Fin 7) : Nat) = 3 := rfl
    simp [handedOver, va_start, w12, v3]
  have b0 : handedOver 60 [0] stale2 0 = 60 := by simp [handedOver, w60]
  have b1 : handedOver 60 [0] stale2 1 = 0 := by simp [handedOver, va_start, w0]
  refine ⟨⟨[handedOver 1 [1, toI64 msg, 12] stale1 0, handedOver 1 [1, toI64 msg, 12] stale1 1,
              handedOver 1 [1, toI64 msg, 12] stale1 2, handedOver 1 [1, toI64 msg, 12] stale1 3,
              handedOver 1 [1, toI64 msg, 12] stale1 4, handedOver 1 [1, toI64 msg, 12] stale1 5,
              handedOver 1 [1, toI64 msg, 12] stale1 6],
            K.result
              [handedOver 1 [1, toI64 msg, 12] stale1 0, handedOver 1 [1, toI64 msg, 12] stale1 1,
                handedOver 1 [1, toI64 msg, 12] stale1 2, handedOver 1 [1, toI64 msg, 12] stale1 3,
                handedOver 1 [1, toI64 msg, 12] stale1 4, handedOver 1 [1, toI64 msg, 12] stale1 5,
                handedOver 1 [1, toI64 msg, 12] stale1 6]
              (syscall_entry m frame1 1 [1, toI64 msg, 12] stale1).mem⟩,
          ⟨[handedOver 60 [0] stale2 0, handedOver 60 [0] stale2 1, handedOver 60 [0] stale2 2,
              handedOver 60 [0] stale2 3, handedOver 60 [0] stale2 4, handedOver 60 [0] stale2 5,
              handedOver 60 [0] stale2 6],
            K.result
              [handedOver 60 [0] stale2 0, handedOver 60 [0] stale2 1, handedOver 60 [0] stale2 2,
                handedOver 60 [0] stale2 3, handedOver 60 [0] stale2 4, handedOver 60 [0] stale2 5,
                handedOver 60 [0] stale2 6]
              (syscall_entry m1 frame2 60 [0] stale2).mem⟩,
          ?_, ?_, ?_, ?_, ?_, hlen, ?_, ?_⟩
  · rw [hstart, Option.map_some', he2]
    simp only [syscall_entry]
    rw [hm1t]
    simp only [syscall_entry, List.append_assoc, List.singleton_append]
  · rfl
  · simp [a0, a1, a2, a3]
  · rfl
  · simp [b0, b1]
  · intro hclear
    obtain ⟨hb, hz⟩ := hmsg
    have hl : helloBytes.length = 12 := by decide
    rw [hl] at hb hz
    constructor
    · intro k hk
      rw [hl] at hk
      have := syscall_fill_other m.mem frame1 1 (va_start [1, toI64 msg, 12] stale1)
        ((msg + k) % W64) (by rw [Nat.mod_mod]; exact hclear k (by omega))
      simp only [syscall_entry, this]
      exact hb k hk
    · rw [hl]
      have := syscall_fill_other m.mem frame1 1 (va_start [1, toI64 msg, 12] stale1)
        ((msg + 12) % W64) (by rw [Nat.mod_mod]; exact hclear 12 (by omega))
      simp only [syscall_entry, this]
      exact hz
  · intro hw
    simp only [a0, a1, a2, a3]
    exact hw _ _ _ _

theorem start_issues_write_then_exit_witness :
    CStrAt exampleMachine.mem 8192 helloBytes ∧
    ∃ t1 t2 : Trap,
      (_start exampleKernel exampleMachine 8192 16384 16384 (fun _ => 5) (fun _ => 6)).map
          (fun x => x.traps)
        = some (exampleMachine.traps ++ [t1, t2]) ∧
      t1.req.take 4 = [1, 1, 8192 % W64, 12] ∧ t2.req.take 2 = [60, 0] ∧ t1.ret = 12 ∧
      CStrAt (syscall_entry exampleMachine 16384 1 [1, toI64 8192, 12] (fun _ => 5)).mem
        8192 helloBytes := by
  obtain ⟨t1, t2, h1, -, h3, -, h5, -, h7, h8⟩ :=
    start_issues_write_then_exit exampleKernel exampleMachine 8192 16384 16384
      (fun _ => 5) (fun _ => 6) (by decide)
  exact ⟨by decide, t1, t2, h1, h3, h5, h8 (fun _ _ _ _ => rfl), h7 (by decide)⟩

theorem shl_xor_injective (k : Nat) (hk : 0 < k) (x y : Nat)
    (h : x ^^^ ((x <<< k) % 4294967296) = y ^^^ ((y <<< k) % 4294967296)) : x = y := by
  have hb : ∀ i, (x.testBit i ^^ (decide (i < 32) && (decide (k ≤ i) && x.testBit (i - k))))
      = (y.testBit i ^^ (decide (i < 32) && (decide (k ≤ i) && y.testBit (i - k)))) := by
    intro i
    have e : (4294967296 : Nat) = 2 ^ 32 := by norm_num
    rw [e] at h
    have := congrArg (fun z => Nat.testBit z i) h
    simp only [Nat.testBit_xor, Nat.testBit_mod_two_pow, Nat.testBit_shiftLeft] at this
    simpa using this
  apply Nat.eq_of_testBit_eq
  intro i
  induction i using Nat.strong_induction_on with
  | _ i ih =>
    have hi := hb i
    by_cases h1 : k ≤ i
    · have := ih (i - k) (by omega)
      rw [this] at hi
      by_cases h2 : i < 32 <;> simp [h1, h2] at hi <;> exact hi
    · simpa [h1] using hi

theorem shr_xor_injective (x y : Nat) (hx : x < 4294967296) (hy : y < 4294967296)
    (h : x ^^^ (x >>> 17) = y ^^^ (y >>> 17)) : x = y := by
  have hb : ∀ i, (x.testBit i ^^ x.testBit (17 + i)) = (y.testBit i ^^ y.testBit (17 + i)) := by
    intro i
    have := congrArg (fun z => Nat.testBit z i) h
    simpa [Nat.testBit_xor, Nat.testBit_shiftRight] using this
  have hhigh : ∀ z, z < 4294967296 → ∀ i, 32 ≤ i → z.testBit i = false := by
    intro z hz i hi
    apply Nat.testBit_lt_two_pow
    calc z < 2 ^ 32 := by norm_num; exact hz
      _ ≤ 2 ^ i := Nat.pow_le_pow_right (by norm_num) hi
  have key : ∀ d i, 32 ≤ i + d → x.testBit i = y.testBit i := by
    intro d
    induction d with
    | zero =>
      intro i hi
      rw [hhigh x hx i (by omega), hhigh y hy i (by omega)]
    | succ d ih =>
      intro i hi
      have h1 := ih (17 + i) (by omega)
      have h2 := hb i
      rw [h1] at h2
      simpa using h2
  apply Nat.eq_of_testBit_eq
  intro i
  exact key 32 i (by omega)

theorem xs32_injective (x y : Nat) (hx : x < 4294967296) (hy : y < 4294967296)
    (h : xs32 x = xs32 y) : x = y := by
  have e : (4294967296 : Nat) = 2 ^ 32 := by norm_num
  have hm : ∀ z, z < 4294967296 → z ^^^ ((z <<< 13) % 4294967296) < 4294967296 := by
    intro z hz
    rw [e] at hz ⊢
    exact Nat.xor_lt_two_pow hz (Nat.mod_lt _ (by norm_num))
  simp only [xs32] at h
  have h1 := shl_xor_injective 5 (by norm_num) _ _ h
  have h2 := shr_xor_injective _ _ (hm x hx) (hm y hy) h1
  exact shl_xor_injective 13 (by norm_num) _ _ h2

theorem xs32_lt (x : Nat) (hx : x < 4294967296) : xs32 x < 4294967296 := by
  have e : (4294967296 : Nat) = 2 ^ 32 := by norm_num
  simp only [xs32]
  rw [e] at hx ⊢
  have h1 : x ^^^ ((x <<< 13) % 2 ^ 32) < 2 ^ 32 :=
    Nat.xor_lt_two_pow hx (Nat.mod_lt _ (by norm_num))
  have h2 : (x ^^^ ((x <<< 13) % 2 ^ 32)) >>> 17 < 2 ^ 32 := by
    rw [Nat.shiftRight_eq_div_pow]
    exact lt_of_le_of_lt (Nat.div_le_self _ _) h1
  exact Nat.xor_lt_two_pow (Nat.xor_lt_two_pow h1 h2) (Nat.mod_lt _ (by norm_num))

theorem xs32_surjective (y : Nat) (hy : y < 4294967296) :
    ∃ z, z < 4294967296 ∧ xs32 z = y := by
  let f : Fin 4294967296 → Fin 4294967296 := fun a => ⟨xs32 a.val, xs32_lt a.val a.isLt⟩
  have hf : Function.Injective f := by
    intro a b hab
    have : xs32 a.val = xs32 b.val := congrArg Fin.val hab
    exact Fin.ext (xs32_injective _ _ a.isLt b.isLt this)
  obtain ⟨a, ha⟩ := (Finite.injective_iff_surjective.mp hf) ⟨y, hy⟩
  exact ⟨a.val, a.isLt, congrArg Fin.val ha⟩

theorem toU32_small (x : Nat) (hx : x < 4294967296) : toU32 (x : Int) = x := by
  unfold toU32
  omega

theorem mainLoop_injective (n : Nat) :
    ∀ x y : Nat, x < 4294967296 → y < 4294967296 →
      mainLoop n (x : Int) = mainLoop n (y : Int) → x = y := by
  induction n with
  | zero =>
    intro x y _ _ h
    simpa [mainLoop] using h
  | succ n ih =>
    intro x y hx hy h
    simp only [mainLoop, toU32_small x hx, toU32_small y hy] at h
    exact xs32_injective x y hx hy (ih _ _ (xs32_lt x hx) (xs32_lt y hy) h)

theorem toU32_lt (v : Int) : toU32 v < 4294967296 := by
  unfold toU32
  omega

theorem mainLoop_succ_eq_iff (n : Nat) (v w : Int) :
    mainLoop (n + 1) v = mainLoop (n + 1) w ↔ toU32 v = toU32 w := by
  constructor
  · intro h
    simp only [mainLoop] at h
    have h1 := mainLoop_injective n _ _ (xs32_lt _ (toU32_lt v)) (xs32_lt _ (toU32_lt w)) h
    exact xs32_injective _ _ (toU32_lt v) (toU32_lt w) h1
  · intro h
    simp only [mainLoop, h]

/-- C10 (as stated) fails in its last clause: the seed of `main` is a `long`, converted to
`uint32_t` at the call `xs32(v)`, so the distinct seeds `2^32` and `0`, and likewise `-1` and
`2^32 - 1`, give the same value after one iteration of the loop. -/
theorem mainLoop_collapses_long_seeds :
    (4294967296 : Int) ≠ 0 ∧ mainLoop 1 4294967296 = mainLoop 1 0 ∧
    (-1 : Int) ≠ 4294967295 ∧ mainLoop 1 (-1) = mainLoop 1 4294967295 := by
  refine ⟨by decide, by decide, by decide, by decide⟩

/-- C10 (amended): on 32-bit values `xs32` is injective, stays below `2^32` and reaches every
32-bit value, so it is a bijection of the `uint32_t` values; `xs32 0 = 0` and a non-zero value
is mapped to a non-zero value. Iterating it as in the loop of `main` keeps distinct seeds
distinct when they lie in the `uint32_t` range; for arbitrary `long` seeds, one or more
iterations give equal values exactly when the seeds agree modulo `2^32`. -/
theorem xs32_bijective (x y : Nat) (hx : x < 2 ^ 32) (hy : y < 2 ^ 32) :
    (xs32 x = xs32 y → x = y) ∧ xs32 x < 2 ^ 32 ∧ (∃ z, z < 2 ^ 32 ∧ xs32 z = y) ∧
    xs32 0 = 0 ∧ (x ≠ 0 → xs32 x ≠ 0) ∧
    (∀ n, mainLoop n (x : Int) = mainLoop n (y : Int) → x = y) ∧
    (∀ (n : Nat) (v w : Int),
      mainLoop (n + 1) v = mainLoop (n + 1) w ↔ v % 2 ^ 32 = w % 2 ^ 32) := by
  have e : (2 : Nat) ^ 32 = 4294967296 := by norm_num
  rw [e] at hx hy ⊢
  have h0 : xs32 0 = 0 := by decide
  refine ⟨xs32_injective x y hx hy, xs32_lt x hx, xs32_surjective y hy, h0, ?_,
    fun n => mainLoop_injective n x y hx hy, ?_⟩
  · intro hne hz
    exact hne (xs32_injective x 0 hx (by norm_num) (hz.trans h0.symm))
  · intro n v w
    rw [mainLoop_succ_eq_iff]
    unfold toU32
    norm_num
    omega

theorem xs32_bijective_witness :
    (1 : Nat) < 2 ^ 32 ∧ (2 : Nat) < 2 ^ 32 ∧ xs32 1 = 270369 ∧ xs32 1 ≠ 0 ∧
    (xs32 1 = xs32 2 → (1 : Nat) = 2) ∧
    (∀ n, mainLoop n ((1 : Nat) : Int) = mainLoop n ((2 : Nat) : Int) → (1 : Nat) = 2) :=
  ⟨by norm_num, by norm_num, by decide,
   (xs32_bijective 1 2 (by norm_num) (by norm_num)).2.2.2.2.1 (by decide),
   (xs32_bijective 1 2 (by norm_num) (by norm_num)).1,
   (xs32_bijective 1 2 (by norm_num) (by norm_num)).2.2.2.2.2.1⟩

end LinuxSyscalls
